import Mathlib

/-!
Verification of `extract_streams.py` (AudioTee dual-stream demultiplexer).

The input file is modelled as a `List Nat` of byte values.  The demux loop
`extract_streams` mirrors the Python source line by line:

* `f.read(13)` / the `len(header) < 13` check — the `data.length < 13` guard;
* `struct.unpack('<BQL', header)` — `parseHeader` (1-byte stream id, 8-byte
  little-endian timestamp, 4-byte little-endian packet size);
* `f.read(packet_size)` / the `len(audio_data) < packet_size` check — the
  truncation guard;
* the `if stream_id == 0 and system_file ... elif stream_id == 1 and mic_file`
  dispatch — `routeOne`.

The bytes written to each opened sink and the two entries of `packet_count`
become the four components of the returned quadruple
`(system bytes, mic bytes, system count, mic count)`.
-/

namespace AudioTee

/-- Little-endian value of a byte list (the `<` format of `struct`). -/
def leNat : List Nat → Nat
  | [] => 0
  | b :: bs => b + 256 * leNat bs

/-- Decoding as in `struct.unpack('<BQL', header)`: byte 0 is `stream_id`,
bytes 1-8 the little-endian `timestamp_us`, bytes 9-12 the little-endian
`packet_size`. -/
def parseHeader (hdr : List Nat) : Nat × Nat × Nat :=
  (hdr.headD 0, leNat ((hdr.drop 1).take 8), leNat ((hdr.drop 9).take 4))

/-- The dispatch of one complete packet (lines 30-36 of the source): append the
payload to the matching opened sink and bump its counter, otherwise drop it. -/
def routeOne (hasSys hasMic : Bool) (stream_id : Nat) (audio_data : List Nat)
    (r : List Nat × List Nat × Nat × Nat) : List Nat × List Nat × Nat × Nat :=
  if stream_id == 0 && hasSys then (audio_data ++ r.1, r.2.1, r.2.2.1 + 1, r.2.2.2)
  else if stream_id == 1 && hasMic then (r.1, audio_data ++ r.2.1, r.2.2.1, r.2.2.2 + 1)
  else r

/-- The demultiplexing loop of `extract_streams`.  `hasSys`/`hasMic` model
whether `system_output`/`mic_output` were provided (so the sink was opened).
The result collects the bytes written to each sink and the two packet
counters. -/
def extract_streams (data : List Nat) (hasSys hasMic : Bool) :
    List Nat × List Nat × Nat × Nat :=
  if _h : data.length < 13 then ([], [], 0, 0)
  else
    let packet_size := (parseHeader (data.take 13)).2.2
    let audio_data := (data.drop 13).take packet_size
    if audio_data.length < packet_size then ([], [], 0, 0)
    else
      routeOne hasSys hasMic (parseHeader (data.take 13)).1 audio_data
        (extract_streams ((data.drop 13).drop packet_size) hasSys hasMic)
termination_by data.length
decreasing_by
  simp only [List.length_drop]
  omega

/-- The sequence of complete `(stream_id, payload)` packets the loop walks
over; exactly the parsing part of `extract_streams`, independent of routing. -/
def packetsOf (data : List Nat) : List (Nat × List Nat) :=
  if _h : data.length < 13 then []
  else
    let packet_size := (parseHeader (data.take 13)).2.2
    let audio_data := (data.drop 13).take packet_size
    if audio_data.length < packet_size then []
    else ((parseHeader (data.take 13)).1, audio_data) ::
      packetsOf ((data.drop 13).drop packet_size)
termination_by data.length
decreasing_by
  simp only [List.length_drop]
  omega

/-- Routing a list of already-parsed packets. -/
def routePackets (hasSys hasMic : Bool) : List (Nat × List Nat) → List Nat × List Nat × Nat × Nat
  | [] => ([], [], 0, 0)
  | (sid, audio) :: tl => routeOne hasSys hasMic sid audio (routePackets hasSys hasMic tl)

/-- An abstract packet, used to synthesize input files. -/
structure Packet where
  stream_id : Nat
  timestamp_us : Nat
  payload : List Nat

/-- Little-endian encoding of `v` on `n` bytes (the `struct.pack` direction). -/
def leBytes : Nat → Nat → List Nat
  | 0, _ => []
  | n + 1, v => v % 256 :: leBytes n (v / 256)

/-- Encoding as in `struct.pack('<BQL', sid, ts, size)`. -/
def encodeHeader (sid ts size : Nat) : List Nat :=
  sid :: (leBytes 8 ts ++ leBytes 4 size)

/-- A packet on the wire: header followed by exactly `payload.length` bytes. -/
def encodePacket (p : Packet) : List Nat :=
  encodeHeader p.stream_id p.timestamp_us p.payload.length ++ p.payload

/-- A file of back-to-back packets. -/
def encodeFile (ps : List Packet) : List Nat :=
  (ps.map encodePacket).flatten

/-- Field bounds of a representable packet. -/
def wfPacket (p : Packet) : Prop :=
  p.stream_id < 256 ∧ p.timestamp_us < 2 ^ 64 ∧ p.payload.length < 2 ^ 32

instance (p : Packet) : Decidable (wfPacket p) := by
  unfold wfPacket; infer_instance

/-- Total payload bytes across the complete packets of the input. -/
def totalPayloadBytes (data : List Nat) : Nat :=
  ((packetsOf data).map (fun q => q.2.length)).sum

/-- Payload bytes of complete packets that are dropped (unmatched stream id, or
matching a sink that was not requested). -/
def droppedBytes (data : List Nat) (hasSys hasMic : Bool) : Nat :=
  (((packetsOf data).filter
      (fun q => !(q.1 == 0 && hasSys) && !(q.1 == 1 && hasMic))).map
    (fun q => q.2.length)).sum

/-- A trailing fragment after which the loop stops: fewer than 13 bytes remain,
or a full header remains whose declared size exceeds the bytes after it. -/
def IsTruncatedTail (tail : List Nat) : Prop :=
  tail.length < 13 ∨ tail.length - 13 < (parseHeader (tail.take 13)).2.2

instance (tail : List Nat) : Decidable (IsTruncatedTail tail) := by
  unfold IsTruncatedTail; infer_instance

/-! ### Basic lemmas about the encoders -/

theorem leBytes_length (n v : Nat) : (leBytes n v).length = n := by
  induction n generalizing v with
  | zero => rfl
  | succ n ih => simp [leBytes, ih]

theorem leNat_leBytes (n v : Nat) : leNat (leBytes n v) = v % 256 ^ n := by
  induction n generalizing v with
  | zero => simp [leBytes, leNat, Nat.mod_one]
  | succ n ih =>
    rw [leBytes, leNat, ih, pow_succ, mul_comm (256 ^ n) 256, Nat.mod_mul]

theorem encodeHeader_length (sid ts size : Nat) : (encodeHeader sid ts size).length = 13 := by
  simp [encodeHeader, leBytes_length]

theorem parseHeader_encodeHeader (sid ts size : Nat) (hsize : size < 2 ^ 32) :
    parseHeader (encodeHeader sid ts size) = (sid, ts % 2 ^ 64, size) := by
  have h8 : (leBytes 8 ts).length = 8 := leBytes_length 8 ts
  have h4 : (leBytes 4 size).length = 4 := leBytes_length 4 size
  unfold parseHeader encodeHeader
  simp only [List.headD_cons, List.drop_succ_cons, List.drop_zero]
  rw [List.take_left' h8, List.drop_left' h8]
  rw [List.take_of_length_le (le_of_eq h4), leNat_leBytes, leNat_leBytes]
  have : size % 256 ^ 4 = size := Nat.mod_eq_of_lt (by norm_num at hsize ⊢; omega)
  rw [this]
  norm_num

/-! ### Unfolding lemmas for the loop -/

theorem extract_streams_stop (data : List Nat) (hs hm : Bool) (h : data.length < 13) :
    extract_streams data hs hm = ([], [], 0, 0) := by
  unfold extract_streams
  simp [h]

theorem extract_streams_trunc (data : List Nat) (hs hm : Bool) (h13 : ¬ data.length < 13)
    (htr : ((data.drop 13).take (parseHeader (data.take 13)).2.2).length
            < (parseHeader (data.take 13)).2.2) :
    extract_streams data hs hm = ([], [], 0, 0) := by
  conv_lhs => unfold extract_streams
  rw [dif_neg h13]
  show (if ((data.drop 13).take (parseHeader (data.take 13)).2.2).length
          < (parseHeader (data.take 13)).2.2 then
        (([], [], 0, 0) : List Nat × List Nat × Nat × Nat)
      else
        routeOne hs hm (parseHeader (data.take 13)).1
          ((data.drop 13).take (parseHeader (data.take 13)).2.2)
          (extract_streams ((data.drop 13).drop (parseHeader (data.take 13)).2.2) hs hm))
      = ([], [], 0, 0)
  exact if_pos htr

theorem extract_streams_step (data : List Nat) (hs hm : Bool) (h13 : ¬ data.length < 13)
    (hok : ¬ ((data.drop 13).take (parseHeader (data.take 13)).2.2).length
            < (parseHeader (data.take 13)).2.2) :
    extract_streams data hs hm =
      routeOne hs hm (parseHeader (data.take 13)).1
        ((data.drop 13).take (parseHeader (data.take 13)).2.2)
        (extract_streams ((data.drop 13).drop (parseHeader (data.take 13)).2.2) hs hm) := by
  conv_lhs => unfold extract_streams
  rw [dif_neg h13]
  show (if ((data.drop 13).take (parseHeader (data.take 13)).2.2).length
          < (parseHeader (data.take 13)).2.2 then
        (([], [], 0, 0) : List Nat × List Nat × Nat × Nat)
      else
        routeOne hs hm (parseHeader (data.take 13)).1
          ((data.drop 13).take (parseHeader (data.take 13)).2.2)
          (extract_streams ((data.drop 13).drop (parseHeader (data.take 13)).2.2) hs hm))
      = _
  exact if_neg hok

theorem packetsOf_stop (data : List Nat) (h : data.length < 13) :
    packetsOf data = [] := by
  unfold packetsOf
  simp [h]

theorem packetsOf_trunc (data : List Nat) (h13 : ¬ data.length < 13)
    (htr : ((data.drop 13).take (parseHeader (data.take 13)).2.2).length
            < (parseHeader (data.take 13)).2.2) :
    packetsOf data = [] := by
  conv_lhs => unfold packetsOf
  rw [dif_neg h13]
  show (if ((data.drop 13).take (parseHeader (data.take 13)).2.2).length
          < (parseHeader (data.take 13)).2.2 then
        ([] : List (Nat × List Nat))
      else
        ((parseHeader (data.take 13)).1, (data.drop 13).take (parseHeader (data.take 13)).2.2) ::
          packetsOf ((data.drop 13).drop (parseHeader (data.take 13)).2.2))
      = []
  exact if_pos htr

theorem packetsOf_step (data : List Nat) (h13 : ¬ data.length < 13)
    (hok : ¬ ((data.drop 13).take (parseHeader (data.take 13)).2.2).length
            < (parseHeader (data.take 13)).2.2) :
    packetsOf data =
      ((parseHeader (data.take 13)).1, (data.drop 13).take (parseHeader (data.take 13)).2.2) ::
        packetsOf ((data.drop 13).drop (parseHeader (data.take 13)).2.2) := by
  conv_lhs => unfold packetsOf
  rw [dif_neg h13]
  show (if ((data.drop 13).take (parseHeader (data.take 13)).2.2).length
          < (parseHeader (data.take 13)).2.2 then
        ([] : List (Nat × List Nat))
      else
        ((parseHeader (data.take 13)).1, (data.drop 13).take (parseHeader (data.take 13)).2.2) ::
          packetsOf ((data.drop 13).drop (parseHeader (data.take 13)).2.2))
      = _
  exact if_neg hok

/-- The loop factors as parsing followed by routing. -/
theorem extract_eq_route (data : List Nat) (hs hm : Bool) :
    extract_streams data hs hm = routePackets hs hm (packetsOf data) := by
  suffices H : ∀ n (d : List Nat), d.length ≤ n →
      extract_streams d hs hm = routePackets hs hm (packetsOf d) from
    H data.length data le_rfl
  intro n
  induction n with
  | zero =>
    intro d hle
    have h13 : d.length < 13 := by omega
    rw [extract_streams_stop _ _ _ h13, packetsOf_stop _ h13]
    rfl
  | succ n ih =>
    intro d hle
    by_cases h13 : d.length < 13
    · rw [extract_streams_stop _ _ _ h13, packetsOf_stop _ h13]
      rfl
    · by_cases htr : ((d.drop 13).take (parseHeader (d.take 13)).2.2).length
          < (parseHeader (d.take 13)).2.2
      · rw [extract_streams_trunc _ _ _ h13 htr, packetsOf_trunc _ h13 htr]
        rfl
      · rw [extract_streams_step _ _ _ h13 htr, packetsOf_step _ h13 htr, routePackets]
        rw [ih _ (by simp only [List.length_drop]; omega)]

/-- Routing computes the two filtered concatenations and the filter lengths. -/
theorem routePackets_eq (hs hm : Bool) (ps : List (Nat × List Nat)) :
    routePackets hs hm ps =
      ( ((ps.filter (fun q => q.1 == 0 && hs)).map Prod.snd).flatten,
        ((ps.filter (fun q => q.1 == 1 && hm)).map Prod.snd).flatten,
        (ps.filter (fun q => q.1 == 0 && hs)).length,
        (ps.filter (fun q => q.1 == 1 && hm)).length ) := by
  induction ps with
  | nil => rfl
  | cons q tl ih =>
    obtain ⟨sid, audio⟩ := q
    by_cases h0 : (sid == 0 && hs) = true
    · have hsid : sid = 0 := by
        rw [Bool.and_eq_true, beq_iff_eq] at h0
        exact h0.1
      have h1 : (sid == 1 && hm) = false := by
        subst hsid; rfl
      simp [routePackets, routeOne, h0, h1, List.filter_cons, ih]
    · by_cases h1 : (sid == 1 && hm) = true
      · simp [routePackets, routeOne, h0, h1, List.filter_cons, ih]
      · simp [routePackets, routeOne, h0, h1, List.filter_cons, ih,
          Bool.eq_false_iff.mpr h0, Bool.eq_false_iff.mpr h1]

/-! ### The loop on encoded inputs -/

theorem packetsOf_header_step (hdr rest : List Nat) (hlen : hdr.length = 13)
    (hrest : (parseHeader hdr).2.2 ≤ rest.length) :
    packetsOf (hdr ++ rest) =
      ((parseHeader hdr).1, rest.take (parseHeader hdr).2.2) ::
        packetsOf (rest.drop (parseHeader hdr).2.2) := by
  have hTake : (hdr ++ rest).take 13 = hdr := List.take_left' hlen
  have hDrop : (hdr ++ rest).drop 13 = rest := List.drop_left' hlen
  have h13 : ¬ (hdr ++ rest).length < 13 := by
    simp only [List.length_append, hlen]
    omega
  have hok : ¬ (((hdr ++ rest).drop 13).take (parseHeader ((hdr ++ rest).take 13)).2.2).length
      < (parseHeader ((hdr ++ rest).take 13)).2.2 := by
    rw [hTake, hDrop, List.length_take]
    omega
  rw [packetsOf_step _ h13 hok, hTake, hDrop]

theorem packetsOf_encodePacket (p : Packet) (rest : List Nat)
    (hlen : p.payload.length < 2 ^ 32) :
    packetsOf (encodePacket p ++ rest) = (p.stream_id, p.payload) :: packetsOf rest := by
  have hp : parseHeader (encodeHeader p.stream_id p.timestamp_us p.payload.length)
      = (p.stream_id, p.timestamp_us % 2 ^ 64, p.payload.length) :=
    parseHeader_encodeHeader _ _ _ hlen
  have hle : (parseHeader (encodeHeader p.stream_id p.timestamp_us p.payload.length)).2.2
      ≤ (p.payload ++ rest).length := by
    rw [hp]
    simp [List.length_append]
  rw [encodePacket, List.append_assoc,
    packetsOf_header_step _ _ (encodeHeader_length _ _ _) hle, hp]
  simp only [List.take_left, List.drop_left]

theorem packetsOf_encodeFile (ps : List Packet) (hwf : ∀ p ∈ ps, p.payload.length < 2 ^ 32) :
    packetsOf (encodeFile ps) = ps.map (fun p => (p.stream_id, p.payload)) := by
  induction ps with
  | nil => exact packetsOf_stop _ (by simp [encodeFile])
  | cons p tl ih =>
    have : encodeFile (p :: tl) = encodePacket p ++ encodeFile tl := by
      simp [encodeFile]
    rw [this, packetsOf_encodePacket _ _ (hwf p (by simp)),
      ih (fun q hq => hwf q (by simp [hq]))]
    rfl

theorem packetsOf_truncTail (tail : List Nat) (h : IsTruncatedTail tail) :
    packetsOf tail = [] := by
  rcases h with h | h
  · exact packetsOf_stop _ h
  · by_cases h13 : tail.length < 13
    · exact packetsOf_stop _ h13
    · refine packetsOf_trunc _ h13 ?_
      rw [List.length_take, List.length_drop]
      omega

theorem packetsOf_encodeFile_tail (ps : List Packet) (tail : List Nat)
    (hwf : ∀ p ∈ ps, p.payload.length < 2 ^ 32) (htail : IsTruncatedTail tail) :
    packetsOf (encodeFile ps ++ tail) = packetsOf (encodeFile ps) := by
  induction ps with
  | nil =>
    rw [show encodeFile [] = [] from rfl, List.nil_append,
      packetsOf_truncTail _ htail, packetsOf_stop _ (by simp)]
  | cons p tl ih =>
    have hsplit : encodeFile (p :: tl) = encodePacket p ++ encodeFile tl := by
      simp [encodeFile]
    rw [hsplit, List.append_assoc,
      packetsOf_encodePacket _ _ (hwf p (by simp)),
      packetsOf_encodePacket _ _ (hwf p (by simp)),
      ih (fun q hq => hwf q (by simp [hq]))]

/-- Splitting the total payload byte count along the three routing outcomes. -/
theorem payload_sum_split (hs hm : Bool) (ps : List (Nat × List Nat)) :
    ((ps.filter (fun q => q.1 == 0 && hs)).map (fun q => q.2.length)).sum
  + ((ps.filter (fun q => q.1 == 1 && hm)).map (fun q => q.2.length)).sum
  + ((ps.filter (fun q => !(q.1 == 0 && hs) && !(q.1 == 1 && hm))).map
      (fun q => q.2.length)).sum
  = (ps.map (fun q => q.2.length)).sum := by
  induction ps with
  | nil => rfl
  | cons q tl ih =>
    by_cases h0 : (q.1 == 0 && hs) = true
    · rw [Bool.and_eq_true, beq_iff_eq] at h0
      obtain ⟨hsid, hhs⟩ := h0
      subst hhs
      simp [List.filter_cons, hsid] at ih ⊢
      omega
    · by_cases h1 : (q.1 == 1 && hm) = true
      · rw [Bool.and_eq_true, beq_iff_eq] at h1
        obtain ⟨hsid, hhm⟩ := h1
        subst hhm
        simp [List.filter_cons, hsid] at ih ⊢
        omega
      · rw [Bool.not_eq_true] at h0 h1
        simp [List.filter_cons, h0, h1, -Bool.not_and]
        omega

/-! ### Claim theorems -/

/-- C1: for an input of N complete packets with stream id 0 and M with stream id 1,
interleaved in any order, running with both outputs provided writes to the system
sink the concatenation of the stream-0 payloads in file order, and to the mic sink
the concatenation of the stream-1 payloads in file order, with counts N and M. -/
theorem round_trip_extraction (ps : List Packet)
    (hwf : ∀ p ∈ ps, wfPacket p)
    (_hsid : ∀ p ∈ ps, p.stream_id = 0 ∨ p.stream_id = 1) :
    extract_streams (encodeFile ps) true true =
      ( ((ps.filter (fun p => p.stream_id == 0)).map Packet.payload).flatten,
        ((ps.filter (fun p => p.stream_id == 1)).map Packet.payload).flatten,
        (ps.filter (fun p => p.stream_id == 0)).length,
        (ps.filter (fun p => p.stream_id == 1)).length ) := by
  rw [extract_eq_route, packetsOf_encodeFile ps (fun p hp => (hwf p hp).2.2),
    routePackets_eq]
  simp [List.filter_map, List.map_map, Function.comp_def]

/-- The concrete scenario of the spec: packets (0, 1000, AAAA), (1, 2000, BBB),
(0, 3000, CC). -/
def ps0 : List Packet :=
  [⟨0, 1000, [65, 65, 65, 65]⟩, ⟨1, 2000, [66, 66, 66]⟩, ⟨0, 3000, [67, 67]⟩]

/-- C1 witness: on the concrete scenario the system output is AAAACC (2 packets)
and the mic output is BBB (1 packet). -/
theorem round_trip_extraction_witness :
    (∀ p ∈ ps0, wfPacket p) ∧ (∀ p ∈ ps0, p.stream_id = 0 ∨ p.stream_id = 1) ∧
      extract_streams (encodeFile ps0) true true
        = ([65, 65, 65, 65, 67, 67], [66, 66, 66], 2, 1) :=
  ⟨by decide, by decide,
    (round_trip_extraction ps0 (by decide) (by decide)).trans (by decide)⟩

/-- C2: a trailing partial packet (fewer than 13 bytes left at a header boundary,
or a header whose declared size exceeds the remaining bytes) makes the loop stop
normally, leaving outputs and counts exactly as for the input without the
trailing fragment. -/
theorem truncation_tolerance (ps : List Packet) (tail : List Nat) (hs hm : Bool)
    (hwf : ∀ p ∈ ps, p.payload.length < 2 ^ 32) (htail : IsTruncatedTail tail) :
    extract_streams (encodeFile ps ++ tail) hs hm = extract_streams (encodeFile ps) hs hm := by
  rw [extract_eq_route, extract_eq_route, packetsOf_encodeFile_tail ps tail hwf htail]

/-- C2 witness: the spec's concrete truncation scenario, 5 stray header bytes
appended to the three-packet input. -/
theorem truncation_tolerance_witness :
    (∀ p ∈ ps0, p.payload.length < 2 ^ 32) ∧ IsTruncatedTail [0, 232, 3, 0, 0] ∧
      extract_streams (encodeFile ps0 ++ [0, 232, 3, 0, 0]) true true
        = extract_streams (encodeFile ps0) true true :=
  ⟨by decide, by decide,
    truncation_tolerance ps0 [0, 232, 3, 0, 0] true true (by decide) (by decide)⟩

/-- C3: bytes written to the system sink plus bytes written to the mic sink plus
dropped payload bytes equal the total payload bytes of the complete packets; as
the statement holds for every input, it holds at every loop entry (each loop
state continues exactly as the run on the remaining suffix). -/
theorem byte_count_conservation (data : List Nat) (hs hm : Bool) :
    (extract_streams data hs hm).1.length + (extract_streams data hs hm).2.1.length
      + droppedBytes data hs hm = totalPayloadBytes data := by
  rw [extract_eq_route, routePackets_eq]
  simp only [droppedBytes, totalPayloadBytes]
  rw [List.length_flatten, List.length_flatten, List.map_map, List.map_map]
  exact payload_sum_split hs hm (packetsOf data)

/-- C6: the reported pair of counters: each component counts exactly the packets
whose payload was written to the corresponding opened sink (and stays 0 for a
sink that was not requested). -/
theorem returned_counts (data : List Nat) (hs hm : Bool) :
    (extract_streams data hs hm).2.2.1
        = ((packetsOf data).filter (fun q => q.1 == 0 && hs)).length
      ∧ (extract_streams data hs hm).2.2.2
        = ((packetsOf data).filter (fun q => q.1 == 1 && hm)).length
      ∧ (extract_streams data hs hm).1
        = (((packetsOf data).filter (fun q => q.1 == 0 && hs)).map Prod.snd).flatten
      ∧ (extract_streams data hs hm).2.1
        = (((packetsOf data).filter (fun q => q.1 == 1 && hm)).map Prod.snd).flatten := by
  rw [extract_eq_route, routePackets_eq]
  exact ⟨rfl, rfl, rfl, rfl⟩

/-- C9: a complete packet with declared size 0 is not treated as truncation: it is
dispatched, the matching open sink's counter is bumped with zero payload bytes
written, and the loop continues on the remaining input. -/
theorem zero_size_packet_dispatch (ts : Nat) (rest : List Nat) (hs hm : Bool) :
    extract_streams (encodePacket ⟨0, ts, []⟩ ++ rest) true hm
        = ((extract_streams rest true hm).1, (extract_streams rest true hm).2.1,
           (extract_streams rest true hm).2.2.1 + 1, (extract_streams rest true hm).2.2.2)
      ∧ extract_streams (encodePacket ⟨1, ts, []⟩ ++ rest) hs true
        = ((extract_streams rest hs true).1, (extract_streams rest hs true).2.1,
           (extract_streams rest hs true).2.2.1, (extract_streams rest hs true).2.2.2 + 1) := by
  constructor
  · rw [extract_eq_route, packetsOf_encodePacket _ _ (by norm_num)]
    simp [routePackets, routeOne, ← extract_eq_route]
  · rw [extract_eq_route, packetsOf_encodePacket _ _ (by norm_num)]
    simp [routePackets, routeOne, ← extract_eq_route]

/-- C10: every non-final loop iteration consumes the 13 header bytes plus the
declared payload, so 13 times the number of such iterations plus all consumed
payload bytes is at most the input length; in particular the loop terminates on
every finite input (the definition of the loop is by well-founded recursion on
that length). -/
theorem loop_consumption_bound (data : List Nat) :
    13 * (packetsOf data).length + totalPayloadBytes data ≤ data.length := by
  suffices H : ∀ n (d : List Nat), d.length ≤ n →
      13 * (packetsOf d).length + totalPayloadBytes d ≤ d.length from
    H data.length data le_rfl
  intro n
  induction n with
  | zero =>
    intro d hle
    simp [totalPayloadBytes, packetsOf_stop _ (show d.length < 13 by omega)]
  | succ n ih =>
    intro d hle
    by_cases h13 : d.length < 13
    · simp [totalPayloadBytes, packetsOf_stop _ h13]
    · by_cases htr : ((d.drop 13).take (parseHeader (d.take 13)).2.2).length
          < (parseHeader (d.take 13)).2.2
      · simp [totalPayloadBytes, packetsOf_trunc _ h13 htr]
      · have hrec := ih ((d.drop 13).drop (parseHeader (d.take 13)).2.2)
          (by simp only [List.length_drop]; omega)
        simp only [totalPayloadBytes, packetsOf_step _ h13 htr, List.map_cons,
          List.sum_cons, List.length_cons, List.length_drop, List.length_take] at hrec ⊢
        rw [List.length_take, List.length_drop] at htr
        omega

/-- C4: a complete packet with a stream id other than 0/1 is consumed and silently
dropped; so is a packet whose matching sink was not requested; and omitting one
output path leaves the other stream's bytes and count untouched. -/
theorem silent_drop_and_selective_extraction :
    (∀ (p : Packet) (rest : List Nat) (hs hm : Bool), p.payload.length < 2 ^ 32 →
        p.stream_id ≠ 0 → p.stream_id ≠ 1 →
        extract_streams (encodePacket p ++ rest) hs hm = extract_streams rest hs hm)
  ∧ (∀ (p : Packet) (rest : List Nat) (hm : Bool), p.payload.length < 2 ^ 32 →
        p.stream_id = 0 →
        extract_streams (encodePacket p ++ rest) false hm = extract_streams rest false hm)
  ∧ (∀ (p : Packet) (rest : List Nat) (hs : Bool), p.payload.length < 2 ^ 32 →
        p.stream_id = 1 →
        extract_streams (encodePacket p ++ rest) hs false = extract_streams rest hs false)
  ∧ (∀ (data : List Nat) (hm : Bool),
        (extract_streams data false hm).2.1 = (extract_streams data true hm).2.1
      ∧ (extract_streams data false hm).2.2.2 = (extract_streams data true hm).2.2.2)
  ∧ (∀ (data : List Nat) (hs : Bool),
        (extract_streams data hs false).1 = (extract_streams data hs true).1
      ∧ (extract_streams data hs false).2.2.1 = (extract_streams data hs true).2.2.1) := by
  refine ⟨?_, ?_, ?_, ?_, ?_⟩
  · intro p rest hs hm hlen hne0 hne1
    rw [extract_eq_route, packetsOf_encodePacket _ _ hlen]
    have e0 : (p.stream_id == 0) = false := by simp [hne0]
    have e1 : (p.stream_id == 1) = false := by simp [hne1]
    simp [routePackets, routeOne, e0, e1, ← extract_eq_route]
  · intro p rest hm hlen hsid
    rw [extract_eq_route, packetsOf_encodePacket _ _ hlen, hsid]
    simp [routePackets, routeOne, ← extract_eq_route]
  · intro p rest hs hlen hsid
    rw [extract_eq_route, packetsOf_encodePacket _ _ hlen, hsid]
    simp [routePackets, routeOne, ← extract_eq_route]
  · intro data hm
    rw [extract_eq_route, extract_eq_route, routePackets_eq, routePackets_eq]
    exact ⟨rfl, rfl⟩
  · intro data hs
    rw [extract_eq_route, extract_eq_route, routePackets_eq, routePackets_eq]
    exact ⟨rfl, rfl⟩

/-- C4 witness: a packet with stream id 7 before the concrete three-packet input
is dropped without affecting anything. -/
theorem silent_drop_witness :
    ((⟨7, 5, [9, 9]⟩ : Packet).payload.length < 2 ^ 32) ∧ (7 : Nat) ≠ 0 ∧ (7 : Nat) ≠ 1 ∧
      extract_streams (encodePacket ⟨7, 5, [9, 9]⟩ ++ encodeFile ps0) true true
        = extract_streams (encodeFile ps0) true true :=
  ⟨by decide, by decide, by decide,
    silent_drop_and_selective_extraction.1 ⟨7, 5, [9, 9]⟩ (encodeFile ps0) true true
      (by decide) (by decide) (by decide)⟩

/-- C5: a 13-byte header decodes as an unsigned byte stream id (byte 0), an
8-byte little-endian timestamp (bytes 1-8) and a 4-byte little-endian packet
size (bytes 9-12), and the loop then takes exactly that many payload bytes
immediately after the header before continuing. -/
theorem header_field_layout (b0 b1 b2 b3 b4 b5 b6 b7 b8 b9 b10 b11 b12 : Nat)
    (rest : List Nat) (hs hm : Bool)
    (hrest : b9 + 2 ^ 8 * b10 + 2 ^ 16 * b11 + 2 ^ 24 * b12 ≤ rest.length) :
    parseHeader [b0, b1, b2, b3, b4, b5, b6, b7, b8, b9, b10, b11, b12]
        = (b0,
           b1 + 2 ^ 8 * b2 + 2 ^ 16 * b3 + 2 ^ 24 * b4 + 2 ^ 32 * b5 + 2 ^ 40 * b6
             + 2 ^ 48 * b7 + 2 ^ 56 * b8,
           b9 + 2 ^ 8 * b10 + 2 ^ 16 * b11 + 2 ^ 24 * b12)
      ∧ extract_streams ([b0, b1, b2, b3, b4, b5, b6, b7, b8, b9, b10, b11, b12] ++ rest) hs hm
          = routeOne hs hm b0
              (rest.take (b9 + 2 ^ 8 * b10 + 2 ^ 16 * b11 + 2 ^ 24 * b12))
              (extract_streams
                (rest.drop (b9 + 2 ^ 8 * b10 + 2 ^ 16 * b11 + 2 ^ 24 * b12)) hs hm) := by
  have hph : parseHeader [b0, b1, b2, b3, b4, b5, b6, b7, b8, b9, b10, b11, b12]
      = (b0,
         b1 + 2 ^ 8 * b2 + 2 ^ 16 * b3 + 2 ^ 24 * b4 + 2 ^ 32 * b5 + 2 ^ 40 * b6
           + 2 ^ 48 * b7 + 2 ^ 56 * b8,
         b9 + 2 ^ 8 * b10 + 2 ^ 16 * b11 + 2 ^ 24 * b12) := by
    simp only [parseHeader, leNat, List.headD_cons, List.drop_succ_cons, List.drop_zero,
      List.take_succ_cons, List.take_zero, Prod.mk.injEq]
    norm_num
    constructor
    · ring
    · ring
  refine ⟨hph, ?_⟩
  have hle : (parseHeader [b0, b1, b2, b3, b4, b5, b6, b7, b8, b9, b10, b11, b12]).2.2
      ≤ rest.length := by
    rw [hph]
    exact hrest
  rw [extract_eq_route, packetsOf_header_step _ _ (by rfl) hle, hph]
  simp [routePackets, ← extract_eq_route]

/-- C5 witness: a concrete header with stream id 2, timestamp 3, size 1, followed
by one payload byte. -/
theorem header_field_layout_witness :
    (1 : Nat) + 2 ^ 8 * 0 + 2 ^ 16 * 0 + 2 ^ 24 * 0 ≤ ([5] : List Nat).length ∧
      (parseHeader [2, 3, 0, 0, 0, 0, 0, 0, 0, 1, 0, 0, 0]
          = (2, 3 + 2 ^ 8 * 0 + 2 ^ 16 * 0 + 2 ^ 24 * 0 + 2 ^ 32 * 0 + 2 ^ 40 * 0
               + 2 ^ 48 * 0 + 2 ^ 56 * 0,
             1 + 2 ^ 8 * 0 + 2 ^ 16 * 0 + 2 ^ 24 * 0)
        ∧ extract_streams ([2, 3, 0, 0, 0, 0, 0, 0, 0, 1, 0, 0, 0] ++ [5]) true true
            = routeOne true true 2 (([5] : List Nat).take (1 + 2 ^ 8 * 0 + 2 ^ 16 * 0 + 2 ^ 24 * 0))
                (extract_streams
                  (([5] : List Nat).drop (1 + 2 ^ 8 * 0 + 2 ^ 16 * 0 + 2 ^ 24 * 0)) true true)) :=
  ⟨by decide,
    header_field_layout 2 3 0 0 0 0 0 0 0 1 0 0 0 [5] true true (by decide)⟩

/-! ### Filesystem effect on an output path (for C8)

`open(path, 'wb')` truncates: whatever the file held before, its content after
the run is exactly the bytes written during the run; a path that was not
requested is left untouched. -/

/-- Content of a file at an output path after one invocation: `none` means the
file does not exist. -/
def fileAfterRun (requested : Bool) (prior : Option (List Nat)) (written : List Nat) :
    Option (List Nat) :=
  if requested then some written else prior

/-- Content of the file at `system_output` after running on `data`. -/
def systemFileAfter (prior : Option (List Nat)) (data : List Nat) (hasSys hasMic : Bool) :
    Option (List Nat) :=
  fileAfterRun hasSys prior (extract_streams data hasSys hasMic).1

/-- Content of the file at `mic_output` after running on `data`. -/
def micFileAfter (prior : Option (List Nat)) (data : List Nat) (hasSys hasMic : Bool) :
    Option (List Nat) :=
  fileAfterRun hasMic prior (extract_streams data hasSys hasMic).2.1

/-- C8: a second run on the same input overwrites each requested output with the
very same bytes (truncation, not append), the result does not depend on what the
file held before, and a requested sink exists afterwards even when no packet
matched it (then with empty content). -/
theorem idempotent_truncating_outputs :
    (∀ (prior prior2 : Option (List Nat)) (data : List Nat) (hm : Bool),
        systemFileAfter (systemFileAfter prior data true hm) data true hm
          = systemFileAfter prior2 data true hm)
  ∧ (∀ (prior prior2 : Option (List Nat)) (data : List Nat) (hs : Bool),
        micFileAfter (micFileAfter prior data hs true) data hs true
          = micFileAfter prior2 data hs true)
  ∧ (∀ (prior : Option (List Nat)) (data : List Nat) (hm : Bool),
        (systemFileAfter prior data true hm).isSome = true)
  ∧ (∀ (prior : Option (List Nat)) (data : List Nat) (hs : Bool),
        (micFileAfter prior data hs true).isSome = true)
  ∧ (∀ (ps : List Packet) (prior : Option (List Nat)) (hm : Bool),
        (∀ p ∈ ps, p.payload.length < 2 ^ 32 ∧ p.stream_id ≠ 0) →
        systemFileAfter prior (encodeFile ps) true hm = some [])
  ∧ (∀ (ps : List Packet) (prior : Option (List Nat)) (hs : Bool),
        (∀ p ∈ ps, p.payload.length < 2 ^ 32 ∧ p.stream_id ≠ 1) →
        micFileAfter prior (encodeFile ps) hs true = some []) := by
  refine ⟨?_, ?_, ?_, ?_, ?_, ?_⟩
  · intro prior prior2 data hm
    simp [systemFileAfter, fileAfterRun]
  · intro prior prior2 data hs
    simp [micFileAfter, fileAfterRun]
  · intro prior data hm
    simp [systemFileAfter, fileAfterRun]
  · intro prior data hs
    simp [micFileAfter, fileAfterRun]
  · intro ps prior hm h
    have hempty : (extract_streams (encodeFile ps) true hm).1 = [] := by
      rw [extract_eq_route, routePackets_eq,
        packetsOf_encodeFile ps (fun p hp => (h p hp).1)]
      have : (ps.map fun p => (p.stream_id, p.payload)).filter
          (fun q => q.1 == 0 && true) = [] := by
        rw [List.filter_eq_nil_iff]
        intro q hq
        obtain ⟨p, hp, rfl⟩ := List.mem_map.mp hq
        simp [(h p hp).2]
      rw [this]
      rfl
    simp [systemFileAfter, fileAfterRun, hempty]
  · intro ps prior hs h
    have hempty : (extract_streams (encodeFile ps) hs true).2.1 = [] := by
      rw [extract_eq_route, routePackets_eq,
        packetsOf_encodeFile ps (fun p hp => (h p hp).1)]
      have : (ps.map fun p => (p.stream_id, p.payload)).filter
          (fun q => q.1 == 1 && true) = [] := by
        rw [List.filter_eq_nil_iff]
        intro q hq
        obtain ⟨p, hp, rfl⟩ := List.mem_map.mp hq
        simp [(h p hp).2]
      rw [this]
      rfl
    simp [micFileAfter, fileAfterRun, hempty]

/-- C8 witness: a mic-only input leaves the requested system output existing and
empty, and rerunning on the concrete scenario is idempotent. -/
theorem idempotent_truncating_outputs_witness :
    (∀ p ∈ [(⟨1, 4, [8]⟩ : Packet)], p.payload.length < 2 ^ 32 ∧ p.stream_id ≠ 0) ∧
      systemFileAfter none (encodeFile [⟨1, 4, [8]⟩]) true true = some [] ∧
      systemFileAfter (systemFileAfter none (encodeFile ps0) true true)
          (encodeFile ps0) true true
        = systemFileAfter (some [3, 3, 3]) (encodeFile ps0) true true :=
  ⟨by decide,
    idempotent_truncating_outputs.2.2.2.2.1 [⟨1, 4, [8]⟩] none true (by decide),
    idempotent_truncating_outputs.1 none (some [3, 3, 3]) (encodeFile ps0) true⟩

/-! ### File-handle lifecycle (for C7)

The source opens the output sinks first (lines 10-11), then opens the input in a
`with` block (line 13).  The closes for the sinks (lines 38-44) run after the
`with` block, on the fall-through path only — they are not in a `finally`.  The
`with` block closes the input on every exit.  `handleLifecycle` records, per
scenario, which handles are still open when the invocation ends and whether an
exception propagated out. -/

structure HandleState where
  systemOpen : Bool
  micOpen : Bool
  inputOpen : Bool
  raised : Bool

/-- Which handles the invocation leaves open.  `inputOpens` models whether
`open(input_file, 'rb')` succeeds; `loopRaises` models a fatal I/O error inside
the loop (a failing read or write). -/
def handleLifecycle (sysRequested micRequested inputOpens loopRaises : Bool) : HandleState :=
  if inputOpens then
    if loopRaises then
      { systemOpen := sysRequested, micOpen := micRequested, inputOpen := false, raised := true }
    else
      { systemOpen := false, micOpen := false, inputOpen := false, raised := false }
  else
    { systemOpen := sysRequested, micOpen := micRequested, inputOpen := false, raised := true }

/-- C7 (refuted): when opening the input fails after the sinks were opened, or a
fatal error is raised mid-loop, the invocation propagates the error with both
output handles still open; only the normal path closes them. -/
theorem output_handle_left_open_on_error :
    (handleLifecycle true true false false).systemOpen = true
  ∧ (handleLifecycle true true false false).micOpen = true
  ∧ (handleLifecycle true true false false).raised = true
  ∧ (handleLifecycle true true true true).systemOpen = true
  ∧ (handleLifecycle true true true false).systemOpen = false :=
  ⟨rfl, rfl, rfl, rfl, rfl⟩

end AudioTee
